import Mathlib

/-!
Verification of the sniproxy configuration loader and HTTP redirector.

This file gives a shallow embedding of the repository source:
* `config.go` (the newer variant, with `Backend`/`ACME` descriptors and
  fully anchored domain regexes): `domain2Regex`, `parseRange`,
  `parseBackend`, `Config.parse`, `Config.ReadFile`;
* the older variant of `domain2Regex` (unanchored) kept as
  `domain2RegexUnanchored`;
* `main.go`: `newRedirect` and the startup sequence of `main`.

Strings are modelled as `List Char`.  Calls to `log.Fatal` (which
terminate the process) and panics are modelled by returning `none` from
the enclosing function.  The Go standard library pieces the code relies
on (`regexp`, `net.ParseIP`, `net.ParseCIDR`, `strings.Split`) are
modelled on the fragment of their behaviour the configuration language
exercises; each model notes its restrictions in its doc comment.
-/

/-! ### Model of the Go `regexp` fragment produced by `domain2Regex`

`domain2Regex` emits regexes that are concatenations of literal
characters, escaped dots `\.` and the wildcard `.*`, optionally
surrounded by the anchors `^` and `$`.  We model compiled regexes of
this shape as a list of atoms plus the two anchor flags, and matching
by an explicit backtracking matcher. -/

/-- One atom of a compiled domain regex: a literal character or `.*`. -/
inductive GlobAtom where
  | lit (c : Char)
  | star
deriving DecidableEq

/-- Fuel-indexed backtracking matcher for a sequence of atoms against a
whole string.  `fuel` dominates `atoms.length + s.length`, so the fuel
never runs out when `matchAtoms` is used. -/
def matchFuel : Nat → List GlobAtom → List Char → Bool
  | 0, _, _ => false
  | _ + 1, [], s => s.isEmpty
  | _ + 1, .lit _ :: _, [] => false
  | n + 1, .lit c :: ps, x :: xs => c == x && matchFuel n ps xs
  | n + 1, .star :: ps, [] => matchFuel n ps []
  | n + 1, .star :: ps, x :: xs =>
      matchFuel n ps (x :: xs) || matchFuel n (.star :: ps) xs

/-- Whole-string matching of an atom sequence. -/
def matchAtoms (ps : List GlobAtom) (s : List Char) : Bool :=
  matchFuel (ps.length + s.length + 1) ps s

/-- Declarative semantics of an atom sequence: `[]` accepts only the
empty string, a literal consumes exactly its character, and `star`
consumes an arbitrary prefix. -/
def GlobSpec : List GlobAtom → List Char → Prop
  | [], s => s = []
  | .lit c :: ps, s => ∃ xs, s = c :: xs ∧ GlobSpec ps xs
  | .star :: ps, s => ∃ u v, s = u ++ v ∧ GlobSpec ps v

theorem matchFuel_iff_globSpec :
    ∀ (n : Nat) (ps : List GlobAtom) (s : List Char),
      ps.length + s.length < n → (matchFuel n ps s = true ↔ GlobSpec ps s) := by
  intro n
  induction n with
  | zero => intro ps s h; omega
  | succ n ih =>
    intro ps s h
    match ps, s with
    | [], s =>
      simp [matchFuel, GlobSpec, List.isEmpty_iff]
    | .lit c :: ps, [] =>
      simp [matchFuel, GlobSpec]
    | .lit c :: ps, x :: xs =>
      have hx : ps.length + xs.length < n := by
        simp [List.length_cons] at h; omega
      constructor
      · intro hm
        simp [matchFuel] at hm
        obtain ⟨hcx, hrest⟩ := hm
        exact ⟨xs, by rw [hcx], (ih ps xs hx).1 hrest⟩
      · intro hs
        obtain ⟨xs', heq, hrest⟩ := hs
        rw [List.cons.injEq] at heq
        obtain ⟨h1, h2⟩ := heq
        simp [matchFuel, h1, h2]
        exact (ih ps xs' (h2 ▸ hx)).2 hrest
    | .star :: ps, [] =>
      have hx : ps.length + ([] : List Char).length < n := by
        simp [List.length_cons] at h; simp; omega
      constructor
      · intro hm
        simp [matchFuel] at hm
        exact ⟨[], [], rfl, (ih ps [] hx).1 hm⟩
      · intro hs
        obtain ⟨u, v, huv, hrest⟩ := hs
        obtain ⟨rfl, rfl⟩ := (List.append_eq_nil).mp huv.symm
        simp [matchFuel]
        exact (ih ps [] hx).2 hrest
    | .star :: ps, x :: xs =>
      have h1 : ps.length + (x :: xs).length < n := by
        simp [List.length_cons] at h ⊢; omega
      have h2 : (GlobAtom.star :: ps).length + xs.length < n := by
        simp [List.length_cons] at h ⊢; omega
      constructor
      · intro hm
        simp [matchFuel] at hm
        rcases hm with hm | hm
        · exact ⟨[], x :: xs, rfl, (ih ps (x :: xs) h1).1 hm⟩
        · obtain ⟨u, v, huv, hrest⟩ := (ih (.star :: ps) xs h2).1 hm
          exact ⟨x :: u, v, by rw [huv]; rfl, hrest⟩
      · intro hs
        obtain ⟨u, v, huv, hrest⟩ := hs
        simp [matchFuel]
        match u, huv with
        | [], huv =>
          left
          exact (ih ps (x :: xs) h1).2 (by rw [huv]; simpa using hrest)
        | y :: u', huv =>
          right
          have hxs : xs = u' ++ v := by
            have := (List.cons.injEq ..▸ huv).2; simpa using this
          exact (ih (.star :: ps) xs h2).2 ⟨u', v, hxs, hrest⟩

theorem matchAtoms_iff_globSpec (ps : List GlobAtom) (s : List Char) :
    matchAtoms ps s = true ↔ GlobSpec ps s :=
  matchFuel_iff_globSpec (ps.length + s.length + 1) ps s (by omega)

/-- A compiled Go regex of the restricted shape emitted by
`domain2Regex`: a sequence of atoms with optional `^` / `$` anchors. -/
structure GoRegex where
  atoms : List GlobAtom
  anchorStart : Bool
  anchorEnd : Bool
deriving DecidableEq

/-- Go `Regexp.MatchString`: an unanchored side behaves as if padded
with `.*` on that side. -/
def GoRegex.matches (re : GoRegex) (s : List Char) : Bool :=
  match re.anchorStart, re.anchorEnd with
  | true, true => matchAtoms re.atoms s
  | true, false => matchAtoms (re.atoms ++ [.star]) s
  | false, true => matchAtoms (.star :: re.atoms) s
  | false, false => matchAtoms (.star :: (re.atoms ++ [.star])) s

/-- Characters that carry a special meaning in Go regex syntax.  A
domain character outside this set reaches the compiled regex as a
literal. -/
def regexMeta (c : Char) : Bool :=
  ['\\', '.', '*', '+', '?', '(', ')', '[', ']', '{', '}', '|', '^', '$'].contains c

/-- Model of `regexp.Compile` on the body of a regex in the restricted
fragment: escaped dots, `.*` wildcards, and non-meta literals.  Any
other construct is outside the modelled fragment and yields `none`. -/
def compileBody : List Char → Option (List GlobAtom)
  | [] => some []
  | c :: rest =>
    if c = '\\' then
      match rest with
      | c2 :: rest2 =>
          if c2 = '.' then (compileBody rest2).map (fun atoms => GlobAtom.lit '.' :: atoms)
          else none
      | [] => none
    else if c = '.' then
      match rest with
      | c2 :: rest2 =>
          if c2 = '*' then (compileBody rest2).map (fun atoms => GlobAtom.star :: atoms)
          else none
      | [] => none
    else if regexMeta c then none
    else (compileBody rest).map (fun atoms => GlobAtom.lit c :: atoms)

/-- Model of `regexp.Compile` on the restricted fragment: strip an
optional leading `^` and trailing `$`, then compile the body. -/
def goCompile (s : List Char) : Option GoRegex :=
  let p1 : Bool × List Char :=
    match s with
    | '^' :: r => (true, r)
    | _ => (false, s)
  let p2 : Bool × List Char :=
    match p1.2.getLast? with
    | some c => if c = '$' then (true, p1.2.dropLast) else (false, p1.2)
    | none => (false, p1.2)
  (compileBody p2.2).map (fun atoms => ⟨atoms, p1.1, p2.1⟩)

/-- The character translation inside `domain2Regex` (config.go): `*`
becomes `.*`, `.` becomes `\.`, everything else is copied verbatim. -/
def translateChar (c : Char) : List Char :=
  if c = '*' then ['.', '*'] else if c = '.' then ['\\', '.'] else [c]

/-- `domain2Regex` of the anchored variant (config.go of the current
tree): translate the domain and compile `"^" ++ translation ++ "$"`. -/
def domain2Regex (domain : List Char) : Option GoRegex :=
  goCompile (('^' :: domain.flatMap translateChar) ++ ['$'])

/-- `domain2Regex` of the older variant (unanchored): compile the bare
translation. -/
def domain2RegexUnanchored (domain : List Char) : Option GoRegex :=
  goCompile (domain.flatMap translateChar)

/-- The intended atom sequence of a domain pattern: `*` is a wildcard,
every other character a literal. -/
def globOf (domain : List Char) : List GlobAtom :=
  domain.map (fun c => if c = '*' then GlobAtom.star else GlobAtom.lit c)

/-- A domain character that the translation handles faithfully: `*`,
`.`, or any character with no regex meta meaning. -/
def domainCharOk (c : Char) : Prop :=
  c = '*' ∨ c = '.' ∨ regexMeta c = false

instance (c : Char) : Decidable (domainCharOk c) := by
  unfold domainCharOk
  infer_instance

theorem compileBody_translate (p : List Char) (hp : ∀ c ∈ p, domainCharOk c) :
    compileBody (p.flatMap translateChar) = some (globOf p) := by
  induction p with
  | nil => simp [globOf, compileBody]
  | cons c rest ih =>
    have hc : domainCharOk c := hp c (List.mem_cons_self c rest)
    have hrest : ∀ x ∈ rest, domainCharOk x := fun x hx => hp x (List.mem_cons_of_mem c hx)
    rcases hc with rfl | rfl | hmeta
    · simp only [List.flatMap_cons, translateChar, if_pos rfl, List.cons_append,
        List.append_assoc]
      simp [compileBody, ih hrest, globOf]
    · simp only [List.flatMap_cons, translateChar, if_neg (by decide : ('.' : Char) ≠ '*'),
        if_pos rfl, List.cons_append]
      simp [compileBody, ih hrest, globOf]
    · have hc1 : c ≠ '\\' := by intro h; rw [h] at hmeta; simp [regexMeta] at hmeta
      have hc2 : c ≠ '.' := by intro h; rw [h] at hmeta; simp [regexMeta] at hmeta
      have hc3 : c ≠ '*' := by intro h; rw [h] at hmeta; simp [regexMeta] at hmeta
      simp only [List.flatMap_cons, translateChar, if_neg hc3, if_neg hc2,
        List.singleton_append]
      rw [compileBody.eq_def]
      simp [hc1, hc2, hmeta, ih hrest, globOf, hc3]

theorem goCompile_anchored (body : List Char) :
    goCompile (('^' :: body) ++ ['$']) =
      (compileBody body).map (fun atoms => ⟨atoms, true, true⟩) := by
  simp only [goCompile, List.cons_append]
  simp [List.getLast?_concat, List.dropLast_concat]

theorem domain2Regex_eq_globOf (p : List Char) (hp : ∀ c ∈ p, domainCharOk c) :
    domain2Regex p = some ⟨globOf p, true, true⟩ := by
  rw [domain2Regex, goCompile_anchored, compileBody_translate p hp]
  rfl

/-! ### Model of `strings.Split` on a single-character separator -/

/-- Helper of `splitSep`: `acc` is the current field, reversed. -/
def splitSepAux (sep : Char) : List Char → List Char → List (List Char)
  | [], acc => [acc.reverse]
  | c :: rest, acc =>
      if c = sep then acc.reverse :: splitSepAux sep rest []
      else splitSepAux sep rest (c :: acc)

/-- Model of Go `strings.Split(s, string(sep))`: splits at every
occurrence of `sep`; the empty input yields `[[]]`. -/
def splitSep (sep : Char) (s : List Char) : List (List Char) :=
  splitSepAux sep s []

/-- `strings.Split(s, ",")` as used by `Config.parse`. -/
def splitComma (s : List Char) : List (List Char) :=
  splitSep ',' s

theorem splitSepAux_ne_nil (sep : Char) :
    ∀ (s acc : List Char), splitSepAux sep s acc ≠ [] := by
  intro s
  induction s with
  | nil => intro acc; simp [splitSepAux]
  | cons c rest ih =>
    intro acc
    by_cases hc : c = sep <;> simp [splitSepAux, hc, ih]

theorem splitComma_ne_nil (s : List Char) : splitComma s ≠ [] :=
  splitSepAux_ne_nil ',' s []

/-- Run a fallible parser over every element, aborting at the first
failure — the shape of every such loop in config.go. -/
def mapOption {α β : Type} (f : α → Option β) : List α → Option (List β)
  | [] => some []
  | a :: l => do
      let b ← f a
      let bs ← mapOption f l
      pure (b :: bs)

theorem mapOption_eq_some {α β : Type} (f : α → Option β) :
    ∀ (l : List α) (res : List β),
      mapOption f l = some res ↔ List.Forall₂ (fun a b => f a = some b) l res := by
  intro l
  induction l with
  | nil =>
    intro res
    constructor
    · intro h
      obtain rfl : ([] : List β) = res := by simpa [mapOption] using h
      exact List.Forall₂.nil
    · intro h
      rw [List.forall₂_nil_left_iff] at h
      simp [mapOption, h]
  | cons a l ih =>
    intro res
    constructor
    · intro h
      simp only [mapOption] at h
      obtain ⟨b, hb, h⟩ := Option.bind_eq_some.mp h
      obtain ⟨bs, hbs, h⟩ := Option.bind_eq_some.mp h
      obtain rfl : b :: bs = res := by simpa using h
      exact List.Forall₂.cons hb ((ih bs).mp hbs)
    · intro h
      rcases h with _ | ⟨hb, hrest⟩
      rename_i b bs
      have hl : mapOption f l = some bs := (ih bs).mpr hrest
      simp [mapOption, hb, hl]

theorem mapOption_length {α β : Type} (f : α → Option β) (l : List α) (res : List β)
    (h : mapOption f l = some res) : res.length = l.length :=
  (((mapOption_eq_some f l res).mp h).length_eq).symm

theorem mapOption_eq_none {α β : Type} (f : α → Option β) (l : List α) (a : α)
    (ha : a ∈ l) (hf : f a = none) : mapOption f l = none := by
  cases h : mapOption f l with
  | none => rfl
  | some res =>
    exfalso
    have h2 := (mapOption_eq_some f l res).mp h
    obtain ⟨⟨i, hi⟩, rfl⟩ := List.mem_iff_get.mp ha
    obtain ⟨hlen, hall⟩ := List.forall₂_iff_get.mp h2
    have := hall i hi (by omega)
    rw [hf] at this
    cases this

/-! ### Model of `net.ParseIP` / `net.ParseCIDR`

Only the textual forms the configuration language needs are modelled:
dotted-quad IPv4 and hex-group IPv6 (with a single `::`, without an
embedded IPv4 tail and without zone suffixes).  `IP.v4` records an
address written in IPv4 form, `IP.v6` one written in IPv6 form (eight
16-bit groups). -/

/-- A parsed IP address, tagged with its textual form. -/
inductive IP where
  | v4 (a b c d : Nat)
  | v6 (gs : List Nat)
deriving DecidableEq

/-- Model of a Go `net.IPNet`: the (network) address together with a
`net.CIDRMask ones bits` mask. -/
structure IPNet where
  ip : IP
  ones : Nat
  bits : Nat
deriving DecidableEq

/-- One decimal field of a dotted quad, per Go `parseIPv4`/`dtoi`:
nonempty digits, no leading zero, value at most 255. -/
def parseV4Field (f : List Char) : Option Nat :=
  if f = [] then none
  else if ¬ (f.all Char.isDigit) then none
  else if 1 < f.length ∧ f.headD 'x' = '0' then none
  else
    let n := f.foldl (fun a c => a * 10 + (c.toNat - 48)) 0
    if n ≤ 255 then some n else none

/-- Model of Go `parseIPv4`: exactly four fields separated by dots. -/
def parseIPv4 (s : List Char) : Option IP :=
  match splitSep '.' s with
  | [a, b, c, d] => do
      let a ← parseV4Field a
      let b ← parseV4Field b
      let c ← parseV4Field c
      let d ← parseV4Field d
      pure (IP.v4 a b c d)
  | _ => none

/-- One hex group of an IPv6 address: one to four hex digits. -/
def parseV6Group (f : List Char) : Option Nat :=
  if f = [] ∨ 4 < f.length then none
  else f.foldlM (fun a c =>
    if c.isDigit then some (a * 16 + (c.toNat - 48))
    else if 'a' ≤ c ∧ c ≤ 'f' then some (a * 16 + (c.toNat - 87))
    else if 'A' ≤ c ∧ c ≤ 'F' then some (a * 16 + (c.toNat - 55))
    else none) 0

/-- Locate the first `::` in an IPv6 literal, returning the text on
each side. -/
def findDoubleColon : List Char → Option (List Char × List Char)
  | [] => none
  | ':' :: ':' :: rest => some ([], rest)
  | c :: rest => (findDoubleColon rest).map (fun p => (c :: p.1, p.2))

/-- Model of Go `parseIPv6` restricted to pure hex-group literals:
eight groups, or fewer with a single `::` standing for the missing
zero groups. -/
def parseIPv6 (s : List Char) : Option IP :=
  match findDoubleColon s with
  | some (l, r) =>
      let lf := if l = [] then [] else splitSep ':' l
      let rf := if r = [] then [] else splitSep ':' r
      do
        let lg ← mapOption parseV6Group lf
        let rg ← mapOption parseV6Group rf
        if lg.length + rg.length ≤ 7 then
          pure (IP.v6 (lg ++ (List.replicate (8 - (lg.length + rg.length)) 0 ++ rg)))
        else none
  | none => do
      let gs ← mapOption parseV6Group (splitSep ':' s)
      if gs.length = 8 then pure (IP.v6 gs) else none

/-- Model of Go `net.ParseIP`: the first `.` or `:` decides the
family, exactly as in the standard library. -/
def parseIP (s : List Char) : Option IP :=
  match s.find? (fun c => c = '.' || c = ':') with
  | some c => if c = '.' then parseIPv4 s else parseIPv6 s
  | none => none

/-- Go `IP.To4`: an address is an IPv4 address when written in dotted
form or when it is an IPv4-mapped IPv6 address `::ffff:a.b.c.d`. -/
def IP.to4 : IP → Option (Nat × Nat × Nat × Nat)
  | .v4 a b c d => some (a, b, c, d)
  | .v6 gs =>
    match gs with
    | [0, 0, 0, 0, 0, 65535, g6, g7] =>
        some (g6 / 256, g6 % 256, g7 / 256, g7 % 256)
    | _ => none

/-- The numeric value of an address (32 or 128 bits). -/
def IP.toNatVal : IP → Nat
  | .v4 a b c d => ((a * 256 + b) * 256 + c) * 256 + d
  | .v6 gs => gs.foldl (fun a g => a * 65536 + g) 0

/-- The mask width that goes with the textual form of an address. -/
def IP.width : IP → Nat
  | .v4 _ _ _ _ => 32
  | .v6 _ => 128

/-- Rebuild a dotted-form address from its 32-bit value. -/
def natToV4 (n : Nat) : IP :=
  IP.v4 (n / 2 ^ 24 % 256) (n / 2 ^ 16 % 256) (n / 2 ^ 8 % 256) (n % 256)

/-- Rebuild an IPv6 address from its 128-bit value. -/
def natToV6 (n : Nat) : IP :=
  IP.v6 ((List.range 8).map (fun i => n / 2 ^ (16 * (7 - i)) % 65536))

/-- Go `IP.Mask` with a `CIDRMask ones width` mask: zero out the low
`width - ones` bits. -/
def IP.maskPrefix (ip : IP) (ones : Nat) : IP :=
  let w := ip.width
  let v := ip.toNatVal / 2 ^ (w - ones) * 2 ^ (w - ones)
  match ip with
  | .v4 _ _ _ _ => natToV4 v
  | .v6 _ => natToV6 v

/-- A decimal number, as Go `dtoi` accepts it for a mask length. -/
def parseDec (s : List Char) : Option Nat :=
  if s = [] ∨ ¬ (s.all Char.isDigit) then none
  else some (s.foldl (fun a c => a * 10 + (c.toNat - 48)) 0)

/-- Model of Go `net.ParseCIDR`: address `/` decimal mask length, the
length bounded by the address width; the returned network address is
the masked address. -/
def parseCIDR (s : List Char) : Option IPNet :=
  match splitSep '/' s with
  | [addr, maskStr] => do
      let ip ← parseIP addr
      let n ← parseDec maskStr
      if n ≤ ip.width then pure ⟨ip.maskPrefix n, n, ip.width⟩ else none
  | _ => none

/-- `parseRange` (config.go): try `net.ParseCIDR`; otherwise parse a
bare IP and attach a `/32` (when `To4` succeeds) or `/128` mask;
`log.Fatal` on anything else is modelled by `none`. -/
def parseRange (subnet : List Char) : Option IPNet :=
  match parseCIDR subnet with
  | some ipnet => some ipnet
  | none =>
    match parseIP subnet with
    | none => none
    | some ip =>
      match ip.to4 with
      | some _ => some ⟨ip, 32, 32⟩
      | none => some ⟨ip, 128, 128⟩

/-- The catch-all IPv4 prefix `0.0.0.0/0` that `Config.parse` appends
to `Deny` (computed there by `net.ParseCIDR("0.0.0.0/0")`). -/
def all4 : IPNet := ⟨IP.v4 0 0 0 0, 0, 32⟩

/-- The catch-all IPv6 prefix `::/0` that `Config.parse` appends to
`Deny` (computed there by `net.ParseCIDR("::/0")`). -/
def all6 : IPNet := ⟨IP.v6 [0, 0, 0, 0, 0, 0, 0, 0], 0, 128⟩

theorem parseCIDR_all4 : parseCIDR "0.0.0.0/0".toList = some all4 := by decide

theorem parseCIDR_all6 : parseCIDR "::/0".toList = some all6 := by decide

/-! ### The configuration data model (config.go) -/

/-- A directive produced by the configuration lexer/parser
(`parseDirective`): a name, arguments, and a nested block.
`Config.parse` consumes the root of this tree. -/
inductive Directive where
  | mk (dirName : List Char) (dirArgs : List (List Char)) (children : List Directive)

/-- The directive name. -/
def Directive.Name : Directive → List Char
  | .mk n _ _ => n

/-- The directive arguments. -/
def Directive.Args : Directive → List (List Char)
  | .mk _ a _ => a

/-- The nested block of the directive. -/
def Directive.Directives : Directive → List Directive
  | .mk _ _ ds => ds

/-- `Backend` (config.go): a backend address and its PROXY protocol
variant. -/
structure Backend where
  Address : List Char
  SendProxy : Nat
deriving DecidableEq

/-- `ProxyNone` (config.go). -/
def ProxyNone : Nat := 0
/-- `ProxyV1` (config.go). -/
def ProxyV1 : Nat := 1
/-- `ProxyV2` (config.go). -/
def ProxyV2 : Nat := 2

/-- `Route` (config.go).  The Go struct holds `*Backend` pointers that
are `nil` until set, modelled with `Option`.  (The `ACME` field is
declared before `Backend` only so that the type name `Backend` is
still visible; the set of fields is that of the source.) -/
structure Route where
  Domains : List GoRegex
  ACME : Option Backend
  Backend : Option Backend
  Deny : List IPNet
  Allow : List IPNet
deriving DecidableEq

/-- `Config` (config.go). -/
structure Config where
  Routes : List Route
deriving DecidableEq

/-- Directive names recognized inside a route block. -/
def backendName : List Char := "backend".toList
/-- The `acme` directive name. -/
def acmeName : List Char := "acme".toList
/-- The `deny` directive name. -/
def denyName : List Char := "deny".toList
/-- The `allow` directive name. -/
def allowName : List Char := "allow".toList
/-- The `send-proxy` directive name. -/
def sendProxyName : List Char := "send-proxy".toList
/-- The `send-proxy-v2` directive name. -/
def sendProxyV2Name : List Char := "send-proxy-v2".toList

/-- One step of the loop in `parseBackend` (config.go): `send-proxy`
and `send-proxy-v2` set the variant (fatal with arguments), any other
name is ignored. -/
def backendChild (backend : Backend) (d : Directive) : Option Backend :=
  if d.Name = sendProxyName then
    if 0 < d.Args.length then none
    else some { backend with SendProxy := ProxyV1 }
  else if d.Name = sendProxyV2Name then
    if 0 < d.Args.length then none
    else some { backend with SendProxy := ProxyV2 }
  else some backend

/-- `parseBackend` (config.go): address from the first argument
(`Args[0]`; the caller has checked the arity, an empty argument list
would panic and is modelled as `none`), then scan the nested block. -/
def parseBackend (directive : Directive) : Option Backend :=
  match directive.Args with
  | [] => none
  | addr :: _ =>
      directive.Directives.foldlM backendChild { Address := addr, SendProxy := ProxyNone }

/-- The comma-separated subnets of one `deny`/`allow` directive, each
parsed by `parseRange` (the loop body in `Config.parse`). -/
def directiveSubnets (dir : Directive) : Option (List IPNet) :=
  mapOption parseRange (splitComma (dir.Args.headD []))

/-- One step of the directive switch in `Config.parse` (config.go):
recognized names check their arity (fatal mismatch modelled as `none`)
and update the route; unknown names fall to `continue`. -/
def routeChild (route : Route) (dir : Directive) : Option Route :=
  if dir.Name = backendName then
    if dir.Args.length ≠ 1 then none
    else (parseBackend dir).map (fun b => { route with Backend := some b })
  else if dir.Name = acmeName then
    if dir.Args.length ≠ 1 then none
    else (parseBackend dir).map (fun b => { route with ACME := some b })
  else if dir.Name = denyName then
    if dir.Args.length ≠ 1 then none
    else (directiveSubnets dir).map (fun nets => { route with Deny := route.Deny ++ nets })
  else if dir.Name = allowName then
    if dir.Args.length ≠ 1 then none
    else (directiveSubnets dir).map (fun nets => { route with Allow := route.Allow ++ nets })
  else some route

/-- The default-deny step at the end of the route loop in
`Config.parse`: a route that uses `allow` gets `0.0.0.0/0` and `::/0`
appended to `Deny`. -/
def applyDefaultDeny (route : Route) : Route :=
  if 0 < route.Allow.length then
    { route with Deny := route.Deny ++ [all4, all6] }
  else route

/-- The body of the route loop in `Config.parse`: compile one matcher
per comma-separated element of the directive name (fatal on a compile
error), process the nested block, then apply the default deny. -/
def parseRoute (directive : Directive) : Option Route := do
  let doms ← mapOption domain2Regex (splitComma directive.Name)
  let route ← directive.Directives.foldlM routeChild
    { Domains := doms, Backend := none, ACME := none, Deny := [], Allow := [] }
  pure (applyDefaultDeny route)

/-- `Config.parse` (config.go): one route per top-level directive, in
order. -/
def Config.parse (root : Directive) : Option Config :=
  (mapOption parseRoute root.Directives).map (fun rs => { Routes := rs })

/-- The observable outcome of running `Config.ReadFile`. -/
inductive ReadResult where
  | errOpen
  | fatalParse
  | ok (c : Config)
deriving DecidableEq

/-- `Config.ReadFile` (config.go): an unreadable file is the only
returned error; otherwise the lexed directive tree (an input of the
model, the lexer is outside config.go) is handed to `Config.parse`,
whose `log.Fatal` calls terminate the process (`fatalParse`) rather
than return. -/
def ReadFile (file : Option Directive) : ReadResult :=
  match file with
  | none => ReadResult.errOpen
  | some root =>
    match Config.parse root with
    | none => ReadResult.fatalParse
    | some c => ReadResult.ok c

/-! ### main.go: the HTTP redirector and startup -/

/-- The default of the `-bind` flag in main.go. -/
def defaultBind : List Char := ":443".toList

/-- What the redirect handler writes for one request. -/
structure HTTPResponse where
  status : Nat
  location : List Char
deriving DecidableEq

/-- `newRedirect` (main.go): every request is answered with
`http.StatusMovedPermanently` (301) and a Location of
`"https://" + r.Host + redirectPort + r.RequestURI`. -/
def newRedirect (redirectPort : List Char) (host requestURI : List Char) : HTTPResponse :=
  ⟨301, "https://".toList ++ host ++ redirectPort ++ requestURI⟩

/-- The handler `main` installs on `:80`: `newRedirect(*bind)`, i.e.
the raw `-bind` flag value is the appended port string. -/
def mainRedirectHandler (bind : List Char) : List Char → List Char → HTTPResponse :=
  newRedirect bind

/-- How far `main` (main.go) gets before serving. -/
inductive Startup where
  | exit
  | listen (c : Config)
deriving DecidableEq

/-- The startup sequence of `main` (main.go): `log.Fatal` (exit with a
nonzero status after printing a message) when the `-conf` flag is
empty, or when `ReadFile` returns an error, or when it kills the
process from inside the parser; otherwise proceed to listening. -/
def mainStartup (conf : List Char) (file : Option Directive) : Startup :=
  if conf = [] then Startup.exit
  else
    match ReadFile file with
    | ReadResult.errOpen => Startup.exit
    | ReadResult.fatalParse => Startup.exit
    | ReadResult.ok c => Startup.listen c

/-! ### Properties of the route loop -/

/-- Spec-side reading of "the prefixes declared by the `name`
directives of the block": pick the children called `name`, parse each
comma-separated argument list, and concatenate, in declaration
order. -/
def declaredList (name : List Char) (d : Directive) : Option (List IPNet) :=
  (mapOption directiveSubnets (d.Directives.filter (fun c => c.Name == name))).map List.flatten

theorem backendName_ne_denyName : backendName ≠ denyName := by decide
theorem backendName_ne_allowName : backendName ≠ allowName := by decide
theorem acmeName_ne_denyName : acmeName ≠ denyName := by decide
theorem acmeName_ne_allowName : acmeName ≠ allowName := by decide
theorem denyName_ne_allowName : denyName ≠ allowName := by decide
theorem backendName_ne_acmeName : backendName ≠ acmeName := by decide

theorem routeChild_eq_some (r₀ r₁ : Route) (c : Directive)
    (h : routeChild r₀ c = some r₁) :
    r₁.Domains = r₀.Domains ∧
    ((c.Name = denyName ∧ c.Name ≠ allowName ∧ ∃ nets, directiveSubnets c = some nets ∧
        r₁.Deny = r₀.Deny ++ nets ∧ r₁.Allow = r₀.Allow) ∨
     (c.Name = allowName ∧ c.Name ≠ denyName ∧ ∃ nets, directiveSubnets c = some nets ∧
        r₁.Allow = r₀.Allow ++ nets ∧ r₁.Deny = r₀.Deny) ∨
     (c.Name ≠ denyName ∧ c.Name ≠ allowName ∧ r₁.Deny = r₀.Deny ∧ r₁.Allow = r₀.Allow)) := by
  by_cases h1 : c.Name = backendName
  · rw [routeChild, if_pos h1] at h
    by_cases h2 : c.Args.length ≠ 1
    · rw [if_pos h2] at h; cases h
    · rw [if_neg h2] at h
      obtain ⟨b, _, rfl⟩ := Option.map_eq_some'.mp h
      exact ⟨rfl, Or.inr (Or.inr ⟨h1 ▸ backendName_ne_denyName,
        h1 ▸ backendName_ne_allowName, rfl, rfl⟩)⟩
  · rw [routeChild, if_neg h1] at h
    by_cases h3 : c.Name = acmeName
    · rw [if_pos h3] at h
      by_cases h4 : c.Args.length ≠ 1
      · rw [if_pos h4] at h; cases h
      · rw [if_neg h4] at h
        obtain ⟨b, _, rfl⟩ := Option.map_eq_some'.mp h
        exact ⟨rfl, Or.inr (Or.inr ⟨h3 ▸ acmeName_ne_denyName,
          h3 ▸ acmeName_ne_allowName, rfl, rfl⟩)⟩
    · rw [if_neg h3] at h
      by_cases h5 : c.Name = denyName
      · rw [if_pos h5] at h
        by_cases h6 : c.Args.length ≠ 1
        · rw [if_pos h6] at h; cases h
        · rw [if_neg h6] at h
          obtain ⟨nets, hnets, rfl⟩ := Option.map_eq_some'.mp h
          exact ⟨rfl, Or.inl ⟨h5, h5 ▸ denyName_ne_allowName, nets, hnets, rfl, rfl⟩⟩
      · rw [if_neg h5] at h
        by_cases h7 : c.Name = allowName
        · rw [if_pos h7] at h
          by_cases h8 : c.Args.length ≠ 1
          · rw [if_pos h8] at h; cases h
          · rw [if_neg h8] at h
            obtain ⟨nets, hnets, rfl⟩ := Option.map_eq_some'.mp h
            exact ⟨rfl, Or.inr (Or.inl ⟨h7, h5, nets, hnets, rfl, rfl⟩)⟩
        · rw [if_neg h7] at h
          obtain rfl : r₀ = r₁ := by simpa using h
          exact ⟨rfl, Or.inr (Or.inr ⟨h5, h7, rfl, rfl⟩)⟩

theorem foldRoute_spec :
    ∀ (cs : List Directive) (r₀ r : Route), cs.foldlM routeChild r₀ = some r →
      r.Domains = r₀.Domains ∧
      ∃ dl al,
        mapOption directiveSubnets (cs.filter (fun c => c.Name == denyName)) = some dl ∧
        mapOption directiveSubnets (cs.filter (fun c => c.Name == allowName)) = some al ∧
        r.Deny = r₀.Deny ++ dl.flatten ∧ r.Allow = r₀.Allow ++ al.flatten := by
  intro cs
  induction cs with
  | nil =>
    intro r₀ r h
    obtain rfl : r₀ = r := by simpa [List.foldlM_nil] using h
    exact ⟨rfl, [], [], rfl, rfl, by simp, by simp⟩
  | cons c cs ih =>
    intro r₀ r h
    rw [List.foldlM_cons] at h
    obtain ⟨r₁, hc, hrest⟩ := Option.bind_eq_some.mp h
    obtain ⟨hdom, hcase⟩ := routeChild_eq_some r₀ r₁ c hc
    obtain ⟨hdom', dl, al, hdl, hal, hdeny, hallow⟩ := ih r₁ r hrest
    rcases hcase with ⟨hd, hna, nets, hnets, hd1, ha1⟩ | ⟨ha, hnd, nets, hnets, ha1, hd1⟩ |
      ⟨hnd, hna, hd1, ha1⟩
    · refine ⟨by rw [hdom', hdom], nets :: dl, al, ?_, ?_, ?_, ?_⟩
      · rw [List.filter_cons, if_pos (by simp [hd])]
        simp [mapOption, hnets, hdl]
      · rw [List.filter_cons, if_neg (by simp [hna])]
        exact hal
      · rw [hdeny, hd1]; simp
      · rw [hallow, ha1]
    · refine ⟨by rw [hdom', hdom], dl, nets :: al, ?_, ?_, ?_, ?_⟩
      · rw [List.filter_cons, if_neg (by simp [hnd])]
        exact hdl
      · rw [List.filter_cons, if_pos (by simp [ha])]
        simp [mapOption, hnets, hal]
      · rw [hdeny, hd1]
      · rw [hallow, ha1]; simp
    · refine ⟨by rw [hdom', hdom], dl, al, ?_, ?_, ?_, ?_⟩
      · rw [List.filter_cons, if_neg (by simp [hnd])]
        exact hdl
      · rw [List.filter_cons, if_neg (by simp [hna])]
        exact hal
      · rw [hdeny, hd1]
      · rw [hallow, ha1]

theorem parseRoute_spec (d : Directive) (r : Route) (h : parseRoute d = some r) :
    mapOption domain2Regex (splitComma d.Name) = some r.Domains ∧
    ∃ dl al,
      declaredList denyName d = some dl ∧
      declaredList allowName d = some al ∧
      r.Allow = al ∧
      r.Deny = (if al = [] then dl else dl ++ [all4, all6]) := by
  simp only [parseRoute] at h
  obtain ⟨doms, hdoms, h⟩ := Option.bind_eq_some.mp h
  obtain ⟨r₁, hfold, h⟩ := Option.bind_eq_some.mp h
  obtain rfl : applyDefaultDeny r₁ = r := by simpa using h
  obtain ⟨hdom, dl, al, hdl, hal, hdeny, hallow⟩ := foldRoute_spec d.Directives _ r₁ hfold
  simp only at hdom hdeny hallow
  rw [List.nil_append] at hdeny hallow
  have hdecl_d : declaredList denyName d = some dl.flatten := by
    rw [declaredList, hdl]; rfl
  have hdecl_a : declaredList allowName d = some al.flatten := by
    rw [declaredList, hal]; rfl
  by_cases hempty : al.flatten = []
  · have hlen : ¬ 0 < r₁.Allow.length := by
      rw [hallow, hempty]; simp
    refine ⟨?_, dl.flatten, al.flatten, hdecl_d, hdecl_a, ?_, ?_⟩
    · rw [applyDefaultDeny, if_neg hlen]
      rw [hdom, hdoms]
    · rw [applyDefaultDeny, if_neg hlen, hallow]
    · rw [applyDefaultDeny, if_neg hlen, if_pos hempty, hdeny]
  · have hlen : 0 < r₁.Allow.length := by
      rw [hallow]
      cases hj : al.flatten with
      | nil => exact absurd hj hempty
      | cons x xs => simp [hj]
    refine ⟨?_, dl.flatten, al.flatten, hdecl_d, hdecl_a, ?_, ?_⟩
    · rw [applyDefaultDeny, if_pos hlen]
      rw [hdom, hdoms]
    · rw [applyDefaultDeny, if_pos hlen]
      simpa using hallow
    · rw [applyDefaultDeny, if_pos hlen, if_neg hempty]
      simp [hdeny]
theorem config_parse_forall₂ (root : Directive) (cfg : Config)
    (h : Config.parse root = some cfg) :
    List.Forall₂ (fun d r => parseRoute d = some r) root.Directives cfg.Routes := by
  simp only [Config.parse] at h
  obtain ⟨rs, hrs, h⟩ := Option.map_eq_some'.mp h
  obtain rfl : Config.mk rs = cfg := h
  exact (mapOption_eq_some parseRoute root.Directives rs).mp hrs

/-- A generic fact about the fatal loops: once one element makes the
step fail for every accumulator, the whole fold fails. -/
theorem foldlM_option_none {α β : Type} (f : β → α → Option β) (cs : List α) (c : α)
    (hc : c ∈ cs) (hnone : ∀ b, f b c = none) :
    ∀ b₀, cs.foldlM f b₀ = none := by
  induction cs with
  | nil => cases hc
  | cons a cs ih =>
    intro b₀
    rw [List.foldlM_cons]
    rcases List.mem_cons.mp hc with rfl | hmem
    · rw [hnone b₀]; rfl
    · cases hfa : f b₀ a with
      | none => rfl
      | some b₁ =>
        simp only [Option.bind_eq_bind, Option.some_bind]
        exact ih hmem b₁

theorem parseRoute_none_of_child (d c : Directive) (hc : c ∈ d.Directives)
    (hnone : ∀ r : Route, routeChild r c = none) : parseRoute d = none := by
  rw [parseRoute]
  cases hdoms : mapOption domain2Regex (splitComma d.Name) with
  | none => rfl
  | some doms =>
    simp only [Option.bind_eq_bind, Option.some_bind]
    rw [foldlM_option_none routeChild d.Directives c hc hnone]
    rfl

theorem config_parse_none_of_route (root d : Directive) (hd : d ∈ root.Directives)
    (h : parseRoute d = none) : Config.parse root = none := by
  rw [Config.parse, mapOption_eq_none parseRoute root.Directives d hd h]
  rfl

theorem routeChild_none_of_arity (c : Directive)
    (hname : c.Name = backendName ∨ c.Name = acmeName ∨ c.Name = denyName ∨
      c.Name = allowName)
    (hlen : c.Args.length ≠ 1) : ∀ r : Route, routeChild r c = none := by
  intro r
  rcases hname with h | h | h | h
  · rw [routeChild, if_pos h, if_pos hlen]
  · rw [routeChild, if_neg (by rw [h]; exact (Ne.symm backendName_ne_acmeName)),
      if_pos h, if_pos hlen]
  · rw [routeChild, if_neg (by rw [h]; exact (Ne.symm backendName_ne_denyName)),
      if_neg (by rw [h]; exact (Ne.symm acmeName_ne_denyName)), if_pos h, if_pos hlen]
  · rw [routeChild, if_neg (by rw [h]; exact (Ne.symm backendName_ne_allowName)),
      if_neg (by rw [h]; exact (Ne.symm acmeName_ne_allowName)),
      if_neg (by rw [h]; exact (Ne.symm denyName_ne_allowName)), if_pos h, if_pos hlen]

theorem routeChild_unknown (c : Directive)
    (hname : c.Name ≠ backendName ∧ c.Name ≠ acmeName ∧ c.Name ≠ denyName ∧
      c.Name ≠ allowName) : ∀ r : Route, routeChild r c = some r := by
  intro r
  obtain ⟨h1, h2, h3, h4⟩ := hname
  rw [routeChild, if_neg h1, if_neg h2, if_neg h3, if_neg h4]

theorem backendChild_none_of_args (c : Directive)
    (hname : c.Name = sendProxyName ∨ c.Name = sendProxyV2Name)
    (hargs : c.Args ≠ []) : ∀ b : Backend, backendChild b c = none := by
  intro b
  have hlen : 0 < c.Args.length := by
    cases ha : c.Args with
    | nil => exact absurd ha hargs
    | cons x xs => simp [ha]
  rcases hname with h | h
  · rw [backendChild, if_pos h, if_pos hlen]
  · rw [backendChild, if_neg (by rw [h]; decide), if_pos h, if_pos hlen]

theorem backendChild_unknown (c : Directive)
    (hname : c.Name ≠ sendProxyName ∧ c.Name ≠ sendProxyV2Name) :
    ∀ b : Backend, backendChild b c = some b := by
  intro b
  rw [backendChild, if_neg hname.1, if_neg hname.2]

theorem parseBackend_none_of_child (d c : Directive) (hc : c ∈ d.Directives)
    (hname : c.Name = sendProxyName ∨ c.Name = sendProxyV2Name)
    (hargs : c.Args ≠ []) : parseBackend d = none := by
  rw [parseBackend]
  cases hargs' : d.Args with
  | nil => rfl
  | cons addr rest =>
    exact foldlM_option_none backendChild d.Directives c hc
      (backendChild_none_of_args c hname hargs) _

theorem routeChild_none_of_parseBackend (bd : Directive)
    (hname : bd.Name = backendName ∨ bd.Name = acmeName)
    (hpb : parseBackend bd = none) : ∀ r : Route, routeChild r bd = none := by
  intro r
  by_cases hlen : bd.Args.length ≠ 1
  · refine routeChild_none_of_arity bd ?_ hlen r
    rcases hname with h | h
    · exact Or.inl h
    · exact Or.inr (Or.inl h)
  · rcases hname with h | h
    · rw [routeChild, if_pos h, if_neg hlen, hpb]
      rfl
    · rw [routeChild, if_neg (by rw [h]; exact (Ne.symm backendName_ne_acmeName)),
        if_pos h, if_neg hlen, hpb]
      rfl

/-! ### The effective PROXY variant of a backend block -/

/-- The last `send-proxy` / `send-proxy-v2` child of a block, if any —
in the source the later assignment overwrites the earlier one. -/
def lastProxyChild : List Directive → Option Directive
  | [] => none
  | c :: cs =>
    match lastProxyChild cs with
    | some x => some x
    | none =>
        if c.Name = sendProxyName ∨ c.Name = sendProxyV2Name then some c else none

/-- The variant after scanning `cs`, starting from variant `v`. -/
def proxyAfter (cs : List Directive) (v : Nat) : Nat :=
  match lastProxyChild cs with
  | none => v
  | some c => if c.Name = sendProxyName then ProxyV1 else ProxyV2

/-- Spec-side reading of the PROXY variant of a backend block: `None`
without any `send-proxy` / `send-proxy-v2` child, otherwise decided by
the last such child. -/
def specSendProxy (cs : List Directive) : Nat :=
  proxyAfter cs ProxyNone

theorem proxyAfter_cons (c : Directive) (cs : List Directive) (v : Nat) :
    proxyAfter (c :: cs) v =
      proxyAfter cs (if c.Name = sendProxyName then ProxyV1
        else if c.Name = sendProxyV2Name then ProxyV2 else v) := by
  rw [proxyAfter, proxyAfter, lastProxyChild]
  cases hl : lastProxyChild cs with
  | some x => rfl
  | none =>
    by_cases h1 : c.Name = sendProxyName
    · simp [h1]
    · by_cases h2 : c.Name = sendProxyV2Name
      · simp [h1, h2]
      · simp [h1, h2]

theorem foldBackend_spec (cs : List Directive) :
    ∀ b : Backend,
      (∀ c ∈ cs, (c.Name = sendProxyName ∨ c.Name = sendProxyV2Name) → c.Args = []) →
      cs.foldlM backendChild b = some ⟨b.Address, proxyAfter cs b.SendProxy⟩ := by
  induction cs with
  | nil =>
    intro b _
    simp [List.foldlM_nil, proxyAfter, lastProxyChild]
  | cons c cs ih =>
    intro b h
    rw [List.foldlM_cons]
    have hrest : ∀ c' ∈ cs, (c'.Name = sendProxyName ∨ c'.Name = sendProxyV2Name) →
        c'.Args = [] := fun c' hc' => h c' (List.mem_cons_of_mem c hc')
    rw [proxyAfter_cons]
    by_cases h1 : c.Name = sendProxyName
    · have hargs : c.Args = [] := h c (List.mem_cons_self c cs) (Or.inl h1)
      have hstep : backendChild b c = some { b with SendProxy := ProxyV1 } := by
        rw [backendChild, if_pos h1, if_neg (by simp [hargs])]
      rw [hstep, if_pos h1]
      simp only [Option.bind_eq_bind, Option.some_bind]
      exact ih _ hrest
    · by_cases h2 : c.Name = sendProxyV2Name
      · have hargs : c.Args = [] := h c (List.mem_cons_self c cs) (Or.inr h2)
        have hstep : backendChild b c = some { b with SendProxy := ProxyV2 } := by
          rw [backendChild, if_neg h1, if_pos h2, if_neg (by simp [hargs])]
        rw [hstep, if_neg h1, if_pos h2]
        simp only [Option.bind_eq_bind, Option.some_bind]
        exact ih _ hrest
      · have hstep : backendChild b c = some b := backendChild_unknown c ⟨h1, h2⟩ b
        rw [hstep, if_neg h1, if_neg h2]
        simp only [Option.bind_eq_bind, Option.some_bind]
        exact ih _ hrest

/-! ### Claims -/

/-- Lowercasing of a string, used to state the case-insensitive
comparison the specification asserts. -/
def lowerStr (s : List Char) : List Char := s.map Char.toLower

/-- The comparison claimed by the specification: the host matches the
anchored glob translation of the pattern case-insensitively. -/
def ciGlobAccepts (p s : List Char) : Bool :=
  matchAtoms (globOf (lowerStr p)) (lowerStr s)

/-- Claim C1, counterexample: the compiled matcher is case-sensitive.
For the pattern `A` and the host `a`, the case-insensitive comparison
demanded by the claim accepts, but the matcher compiled by
`domain2Regex` rejects. -/
theorem c1_counterexample :
    ciGlobAccepts "A".toList "a".toList = true ∧
    (domain2Regex "A".toList).map (fun re => re.matches "a".toList) = some false := by
  constructor
  · decide
  · decide

/-- Claim C1 (amended): for every pattern whose characters are `*`,
`.`, or free of regex meta meaning, the compiled matcher accepts a
host exactly when the host matches the anchored glob translation
(`*` is `.*`, every other character literal), with a case-sensitive
comparison; in particular `*.example.com` accepts `a.example.com` and
`x.y.example.com` but not `example.com`. -/
theorem c1_host_matcher :
    (∀ p s : List Char, (∀ c ∈ p, domainCharOk c) →
        ∃ re, domain2Regex p = some re ∧
          (re.matches s = true ↔ GlobSpec (globOf p) s)) ∧
    (domain2Regex "*.example.com".toList).map
      (fun re => re.matches "a.example.com".toList) = some true ∧
    (domain2Regex "*.example.com".toList).map
      (fun re => re.matches "x.y.example.com".toList) = some true ∧
    (domain2Regex "*.example.com".toList).map
      (fun re => re.matches "example.com".toList) = some false := by
  refine ⟨?_, by decide, by decide, by decide⟩
  intro p s hp
  refine ⟨⟨globOf p, true, true⟩, domain2Regex_eq_globOf p hp, ?_⟩
  show matchAtoms (globOf p) s = true ↔ GlobSpec (globOf p) s
  exact matchAtoms_iff_globSpec (globOf p) s

/-- Witness for C1: the general part applied to the pattern
`*.example.com` and the host `a.example.com`. -/
theorem c1_host_matcher_witness :
    ∃ re, domain2Regex "*.example.com".toList = some re ∧
      (re.matches "a.example.com".toList = true ↔
        GlobSpec (globOf "*.example.com".toList) "a.example.com".toList) :=
  c1_host_matcher.1 "*.example.com".toList "a.example.com".toList (by decide)

/-- Claim C3, counterexample: with the default bind `:443` the
redirect Location is `https://h.example:443/x?y`, not the claimed
`https://h.example/x?y` — `main` appends the raw `-bind` string
unconditionally. -/
theorem c3_counterexample :
    (mainRedirectHandler defaultBind "h.example".toList "/x?y".toList).location ≠
      "https://h.example/x?y".toList ∧
    mainRedirectHandler defaultBind "h.example".toList "/x?y".toList =
      ⟨301, "https://h.example:443/x?y".toList⟩ := by
  constructor
  · decide
  · decide

/-- Claim C3 (amended): every request to the port-80 listener is
answered with status 301 and a Location of
`https://` + Host + bind + request URI, where bind is the raw value of
the `-bind` flag appended verbatim (default `:443`), for every bind
value — no case distinction on the port. -/
theorem c3_redirect :
    ∀ (bind host uri : List Char),
      mainRedirectHandler bind host uri =
        ⟨301, "https://".toList ++ host ++ bind ++ uri⟩ :=
  fun _ _ _ => rfl

/-- Claim C4: an argument of `deny`/`allow` that parses as a CIDR is
kept as that prefix; otherwise a bare IP becomes a `/32` prefix when
`To4` recognizes it as an IPv4 address and a `/128` prefix when not;
anything else is a fatal load error (`none`). -/
theorem c4_parse_range (s : List Char) :
    (∀ n, parseCIDR s = some n → parseRange s = some n) ∧
    (parseCIDR s = none → ∀ ip, parseIP s = some ip →
        ((∃ q, ip.to4 = some q) → parseRange s = some ⟨ip, 32, 32⟩) ∧
        (ip.to4 = none → parseRange s = some ⟨ip, 128, 128⟩)) ∧
    (parseCIDR s = none → parseIP s = none → parseRange s = none) := by
  refine ⟨?_, ?_, ?_⟩
  · intro n h
    rw [parseRange, h]
  · intro hc ip hip
    constructor
    · rintro ⟨q, hq⟩
      rw [parseRange, hc, hip]
      dsimp only
      rw [hq]
    · intro hq
      rw [parseRange, hc, hip]
      dsimp only
      rw [hq]
  · intro hc hip
    rw [parseRange, hc, hip]

/-- Witness for C4: a CIDR, a bare IPv4, a bare IPv6 and a rejected
argument. -/
theorem c4_parse_range_witness :
    parseRange "10.0.0.0/8".toList = some ⟨IP.v4 10 0 0 0, 8, 32⟩ ∧
    parseRange "1.2.3.4".toList = some ⟨IP.v4 1 2 3 4, 32, 32⟩ ∧
    parseRange "::1".toList = some ⟨IP.v6 [0, 0, 0, 0, 0, 0, 0, 1], 128, 128⟩ ∧
    parseRange "nope".toList = none :=
  ⟨(c4_parse_range "10.0.0.0/8".toList).1 ⟨IP.v4 10 0 0 0, 8, 32⟩ (by decide),
   ((c4_parse_range "1.2.3.4".toList).2.1 (by decide) (IP.v4 1 2 3 4) (by decide)).1
     ⟨(1, 2, 3, 4), by decide⟩,
   ((c4_parse_range "::1".toList).2.1 (by decide) (IP.v6 [0, 0, 0, 0, 0, 0, 0, 1])
     (by decide)).2 (by decide),
   (c4_parse_range "nope".toList).2.2 (by decide) (by decide)⟩

/-- The route used by claim C10: its top-level domain list `a,` has a
trailing comma, so its second element is empty. -/
def c10Root : Directive := .mk [] [] [.mk "a,".toList [] []]

/-- Claim C10: a domain list with an empty element is accepted at
load; the empty element compiles, in the anchored variant, to the
matcher `^$`, which accepts only the empty host, and in the
unanchored variant to the empty regex, which accepts every host. -/
theorem c10_empty_domain :
    (Config.parse c10Root).isSome = true ∧
    (Config.parse c10Root).map
      (fun cfg => (cfg.Routes.headD ⟨[], none, none, [], []⟩).Domains) =
      some [⟨[GlobAtom.lit 'a'], true, true⟩, ⟨[], true, true⟩] ∧
    domain2Regex [] = some ⟨[], true, true⟩ ∧
    (∀ s : List Char, (GoRegex.mk [] true true).matches s = true ↔ s = []) ∧
    domain2RegexUnanchored [] = some ⟨[], false, false⟩ ∧
    (∀ s : List Char, (GoRegex.mk [] false false).matches s = true) := by
  refine ⟨by decide, by decide, by decide, ?_, by decide, ?_⟩
  · intro s
    show matchAtoms [] s = true ↔ s = []
    rw [matchAtoms_iff_globSpec]
    exact Iff.rfl
  · intro s
    show matchAtoms (.star :: ([] ++ [.star])) s = true
    rw [matchAtoms_iff_globSpec]
    exact ⟨s, [], (List.append_nil s).symm, [], [], rfl, rfl⟩

/-- Claim C2: after a successful load, a route with a non-empty Allow
list has both `0.0.0.0/0` and `::/0` in its Deny list (appended at
load time), and a route with an empty Allow list has exactly the
prefixes declared by its deny directives, with nothing added. -/
theorem c2_default_deny (root : Directive) (cfg : Config)
    (h : Config.parse root = some cfg) :
    List.Forall₂ (fun d r =>
        (r.Allow ≠ [] → all4 ∈ r.Deny ∧ all6 ∈ r.Deny) ∧
        (r.Allow = [] → declaredList denyName d = some r.Deny))
      root.Directives cfg.Routes := by
  refine List.Forall₂.imp ?_ (config_parse_forall₂ root cfg h)
  intro d r hdr
  obtain ⟨_, dl, al, hdl, hal, hAllow, hDeny⟩ := parseRoute_spec d r hdr
  constructor
  · intro hne
    have hal_ne : ¬ (al = []) := by rw [hAllow] at hne; exact hne
    rw [hDeny, if_neg hal_ne]
    exact ⟨List.mem_append_right _ (by simp), List.mem_append_right _ (by simp)⟩
  · intro hemp
    rw [hDeny, if_pos (hAllow ▸ hemp)]
    exact hdl

/-- The root used by the C2 witness: one route with `allow`, one with
only `deny`. -/
def c2Root : Directive :=
  .mk [] [] [
    .mk "a".toList [] [.mk allowName ["10.0.0.0/8".toList] []],
    .mk "b".toList [] [.mk denyName ["192.168.0.1".toList] []]]

/-- The configuration loaded from `c2Root`. -/
def c2Cfg : Config := (Config.parse c2Root).getD ⟨[]⟩

/-- Witness for C2 at a concrete two-route configuration. -/
theorem c2_default_deny_witness :
    List.Forall₂ (fun d r =>
        (r.Allow ≠ [] → all4 ∈ r.Deny ∧ all6 ∈ r.Deny) ∧
        (r.Allow = [] → declaredList denyName d = some r.Deny))
      c2Root.Directives c2Cfg.Routes :=
  c2_default_deny c2Root c2Cfg (by decide)

/-- The backend block of the C5 counterexample: both `send-proxy` and
`send-proxy-v2` appear. -/
def c5BothDirective : Directive :=
  .mk backendName ["127.0.0.1:9000".toList]
    [.mk sendProxyName [] [], .mk sendProxyV2Name [] []]

/-- Claim C5, counterexample: a backend block containing `send-proxy`
followed by `send-proxy-v2` yields variant V2 even though it contains
`send-proxy`, contradicting "V1 when the block contains send-proxy" —
the last such child wins. -/
theorem c5_counterexample :
    parseBackend c5BothDirective =
      some ⟨"127.0.0.1:9000".toList, ProxyV2⟩ ∧ ProxyV2 ≠ ProxyV1 := by
  constructor
  · decide
  · decide

/-- Claim C5 (amended): for a backend or acme directive with exactly
one argument whose `send-proxy`/`send-proxy-v2` children carry no
arguments, the descriptor has that argument as address and its variant
is decided by the last `send-proxy`/`send-proxy-v2` child: none
present gives None, `send-proxy` last gives V1, `send-proxy-v2` last
gives V2; the variant is always one of exactly {None, V1, V2}. -/
theorem c5_backend_variant (d : Directive) (addr : List Char)
    (h1 : d.Args = [addr])
    (h2 : ∀ c ∈ d.Directives,
      (c.Name = sendProxyName ∨ c.Name = sendProxyV2Name) → c.Args = []) :
    parseBackend d = some ⟨addr, specSendProxy d.Directives⟩ ∧
    (specSendProxy d.Directives = ProxyNone ∨
      specSendProxy d.Directives = ProxyV1 ∨
      specSendProxy d.Directives = ProxyV2) := by
  constructor
  · rw [parseBackend.eq_def, h1]
    exact foldBackend_spec d.Directives ⟨addr, ProxyNone⟩ h2
  · rw [specSendProxy, proxyAfter]
    cases hl : lastProxyChild d.Directives with
    | none => exact Or.inl rfl
    | some c =>
      by_cases h : c.Name = sendProxyName
      · refine Or.inr (Or.inl ?_)
        dsimp only
        rw [if_pos h]
      · refine Or.inr (Or.inr ?_)
        dsimp only
        rw [if_neg h]

/-- The backend block of the C5 witness: a single `send-proxy`. -/
def c5OneDirective : Directive :=
  .mk backendName ["b:1".toList] [.mk sendProxyName [] []]

/-- Witness for C5 at a concrete one-child backend block. -/
theorem c5_backend_variant_witness :
    parseBackend c5OneDirective =
      some ⟨"b:1".toList, specSendProxy c5OneDirective.Directives⟩ ∧
    (specSendProxy c5OneDirective.Directives = ProxyNone ∨
      specSendProxy c5OneDirective.Directives = ProxyV1 ∨
      specSendProxy c5OneDirective.Directives = ProxyV2) :=
  c5_backend_variant c5OneDirective "b:1".toList rfl (by
    intro c hc _
    obtain rfl := List.mem_singleton.mp hc
    rfl)

/-- Claim C6: a recognized directive with malformed arity (backend,
acme, deny, allow with an argument count other than one; send-proxy or
send-proxy-v2 with any argument) makes the load fatal, both at the
step and through `Config.parse`; an unrecognized route-block or
backend-block child is silently ignored and leaves the route (resp.
backend) being built unchanged. -/
theorem c6_arity_and_unknown :
    ∀ (root rd bd c : Directive) (r : Route) (b : Backend),
      ((c.Name = backendName ∨ c.Name = acmeName ∨ c.Name = denyName ∨
          c.Name = allowName) → c.Args.length ≠ 1 →
        routeChild r c = none ∧
        (rd ∈ root.Directives → c ∈ rd.Directives → Config.parse root = none)) ∧
      ((c.Name = sendProxyName ∨ c.Name = sendProxyV2Name) → c.Args ≠ [] →
        backendChild b c = none ∧
        ((bd.Name = backendName ∨ bd.Name = acmeName) → c ∈ bd.Directives →
          bd ∈ rd.Directives → rd ∈ root.Directives → Config.parse root = none)) ∧
      (c.Name ∉ ([backendName, acmeName, denyName, allowName] : List (List Char)) →
        routeChild r c = some r) ∧
      (c.Name ∉ ([sendProxyName, sendProxyV2Name] : List (List Char)) →
        backendChild b c = some b) := by
  intro root rd bd c r b
  refine ⟨?_, ?_, ?_, ?_⟩
  · intro hname hlen
    refine ⟨routeChild_none_of_arity c hname hlen r, ?_⟩
    intro hrd hc
    exact config_parse_none_of_route root rd hrd
      (parseRoute_none_of_child rd c hc (routeChild_none_of_arity c hname hlen))
  · intro hname hargs
    refine ⟨backendChild_none_of_args c hname hargs b, ?_⟩
    intro hbdname hc hbd hrd
    exact config_parse_none_of_route root rd hrd
      (parseRoute_none_of_child rd bd hbd
        (routeChild_none_of_parseBackend bd hbdname
          (parseBackend_none_of_child bd c hc hname hargs)))
  · intro hnot
    refine routeChild_unknown c ⟨?_, ?_, ?_, ?_⟩ r
    · intro hh; exact hnot (by rw [hh]; simp)
    · intro hh; exact hnot (by rw [hh]; simp)
    · intro hh; exact hnot (by rw [hh]; simp)
    · intro hh; exact hnot (by rw [hh]; simp)
  · intro hnot
    refine backendChild_unknown c ⟨?_, ?_⟩ b
    · intro hh; exact hnot (by rw [hh]; simp)
    · intro hh; exact hnot (by rw [hh]; simp)

/-- Witness for C6: a fatal zero-argument `deny`, a fatal argument on
`send-proxy` under a backend block, an ignored unknown route child and
an ignored unknown backend child, all concrete. -/
theorem c6_arity_and_unknown_witness :
    Config.parse (.mk [] [] [.mk "x".toList [] [.mk denyName [] []]]) = none ∧
    Config.parse (.mk [] [] [.mk "x".toList []
      [.mk backendName ["b:1".toList] [.mk sendProxyName ["z".toList] []]]]) = none ∧
    routeChild ⟨[], none, none, [], []⟩ (.mk "mystery".toList [] []) =
      some ⟨[], none, none, [], []⟩ ∧
    backendChild ⟨[], 0⟩ (.mk "mystery".toList [] []) = some ⟨[], 0⟩ :=
  ⟨((c6_arity_and_unknown (.mk [] [] [.mk "x".toList [] [.mk denyName [] []]])
        (.mk "x".toList [] [.mk denyName [] []]) (.mk [] [] []) (.mk denyName [] [])
        ⟨[], none, none, [], []⟩ ⟨[], 0⟩).1 (by decide) (by decide)).2
      (List.Mem.head _) (List.Mem.head _),
   ((c6_arity_and_unknown (.mk [] [] [.mk "x".toList []
          [.mk backendName ["b:1".toList] [.mk sendProxyName ["z".toList] []]]])
        (.mk "x".toList [] [.mk backendName ["b:1".toList]
          [.mk sendProxyName ["z".toList] []]])
        (.mk backendName ["b:1".toList] [.mk sendProxyName ["z".toList] []])
        (.mk sendProxyName ["z".toList] [])
        ⟨[], none, none, [], []⟩ ⟨[], 0⟩).2.1 (by decide) (by decide)).2
      (by decide) (List.Mem.head _) (List.Mem.head _) (List.Mem.head _),
   (c6_arity_and_unknown (.mk [] [] []) (.mk [] [] []) (.mk [] [] [])
        (.mk "mystery".toList [] []) ⟨[], none, none, [], []⟩ ⟨[], 0⟩).2.2.1
      (by decide),
   (c6_arity_and_unknown (.mk [] [] []) (.mk [] [] []) (.mk [] [] [])
        (.mk "mystery".toList [] []) ⟨[], none, none, [], []⟩ ⟨[], 0⟩).2.2.2
      (by decide)⟩

/-- Claim C7: a successful load yields one route per top-level
directive, in declaration order, and each route carries one compiled
matcher per comma-separated element of the directive name, in order;
the matcher list is never empty. -/
theorem c7_routes_and_domains (root : Directive) (cfg : Config)
    (h : Config.parse root = some cfg) :
    cfg.Routes.length = root.Directives.length ∧
    List.Forall₂ (fun d r =>
        parseRoute d = some r ∧
        mapOption domain2Regex (splitComma d.Name) = some r.Domains ∧
        r.Domains ≠ []) root.Directives cfg.Routes := by
  have hf := config_parse_forall₂ root cfg h
  refine ⟨hf.length_eq.symm, List.Forall₂.imp ?_ hf⟩
  intro d r hdr
  obtain ⟨hdoms, _⟩ := parseRoute_spec d r hdr
  refine ⟨hdr, hdoms, ?_⟩
  intro hempty
  have hlen := mapOption_length domain2Regex (splitComma d.Name) r.Domains hdoms
  rw [hempty] at hlen
  exact splitComma_ne_nil d.Name (by simpa using hlen.symm)

/-- The root used by the C7 witness. -/
def c7Root : Directive :=
  .mk [] [] [.mk "a.example,*.b".toList [] [], .mk "c".toList [] []]

/-- The configuration loaded from `c7Root`. -/
def c7Cfg : Config := (Config.parse c7Root).getD ⟨[]⟩

/-- Witness for C7 at a concrete two-directive configuration. -/
theorem c7_routes_and_domains_witness :
    c7Cfg.Routes.length = c7Root.Directives.length ∧
    List.Forall₂ (fun d r =>
        parseRoute d = some r ∧
        mapOption domain2Regex (splitComma d.Name) = some r.Domains ∧
        r.Domains ≠ []) c7Root.Directives c7Cfg.Routes :=
  c7_routes_and_domains c7Root c7Cfg (by decide)

/-- Claim C8: startup exits (nonzero, after logging) when the `-conf`
flag is empty or the configuration file cannot be read, and proceeds
to listening when the flag is set and `ReadFile` returns the parsed
configuration. -/
theorem c8_startup (conf : List Char) (file : Option Directive) :
    (conf = [] → mainStartup conf file = Startup.exit) ∧
    (file = none → mainStartup conf file = Startup.exit) ∧
    (∀ c, conf ≠ [] → ReadFile file = ReadResult.ok c →
      mainStartup conf file = Startup.listen c) := by
  refine ⟨?_, ?_, ?_⟩
  · intro h
    rw [mainStartup, if_pos h]
  · intro h
    by_cases hc : conf = []
    · rw [mainStartup, if_pos hc]
    · rw [mainStartup, if_neg hc, h]
      rfl
  · intro c hconf hok
    rw [mainStartup, if_neg hconf, hok]

/-- A minimal well-formed root directive. -/
def okRoot : Directive :=
  .mk [] [] [.mk "example.com".toList [] [.mk backendName ["127.0.0.1:9000".toList] []]]

/-- The configuration loaded from `okRoot`. -/
def okCfg : Config := (Config.parse okRoot).getD ⟨[]⟩

/-- Witness for C8: the no-flag exit, the unreadable-file exit and the
successful path, all concrete. -/
theorem c8_startup_witness :
    mainStartup [] none = Startup.exit ∧
    mainStartup "sni.conf".toList none = Startup.exit ∧
    mainStartup "sni.conf".toList (some okRoot) = Startup.listen okCfg :=
  ⟨(c8_startup [] none).1 rfl,
   (c8_startup "sni.conf".toList none).2.1 rfl,
   (c8_startup "sni.conf".toList (some okRoot)).2.2 okCfg (by decide) (by decide)⟩

/-- Claim C9: `Config.ReadFile` returns an error exactly when the file
cannot be opened; a content error (any input on which `Config.parse`
is fatal) terminates the process inside the parser instead of being
returned, and a parsable file is returned as `ok`. -/
theorem c9_readfile_errors (file : Option Directive) :
    (ReadFile file = ReadResult.errOpen ↔ file = none) ∧
    (∀ root, file = some root → Config.parse root = none →
      ReadFile file = ReadResult.fatalParse) ∧
    (∀ root cfg, file = some root → Config.parse root = some cfg →
      ReadFile file = ReadResult.ok cfg) := by
  refine ⟨⟨?_, ?_⟩, ?_, ?_⟩
  · intro h
    cases file with
    | none => rfl
    | some root =>
      exfalso
      rw [ReadFile] at h
      cases hp : Config.parse root with
      | none => rw [hp] at h; cases h
      | some c => rw [hp] at h; cases h
  · intro h
    rw [h]
    rfl
  · intro root hf hp
    rw [hf, ReadFile, hp]
  · intro root cfg hf hp
    rw [hf, ReadFile, hp]

/-- Witness for C9: a missing file, a file whose content is fatal
(zero-argument `deny`), and a good file, all concrete. -/
theorem c9_readfile_errors_witness :
    ReadFile none = ReadResult.errOpen ∧
    ReadFile (some (.mk [] [] [.mk "x".toList [] [.mk denyName [] []]])) =
      ReadResult.fatalParse ∧
    ReadFile (some okRoot) = ReadResult.ok okCfg :=
  ⟨(c9_readfile_errors none).1.mpr rfl,
   (c9_readfile_errors (some (.mk [] [] [.mk "x".toList [] [.mk denyName [] []]]))).2.1
     (.mk [] [] [.mk "x".toList [] [.mk denyName [] []]]) rfl (by decide),
   (c9_readfile_errors (some okRoot)).2.2 okRoot okCfg rfl (by decide)⟩
